import Mathlib

/-!
# Verification of the mining-and-cross-referencing pipeline

Shallow embedding of the core of `framework/llm_xref.py`,
`framework/fast_bug_miner.py` and `framework/utils.py`, together with
proofs and refutations of the stated testable properties.

Conventions:
* Python strings are Lean `String`s; character-level operations are
  performed on `String.data` so that every definition evaluates by
  kernel reduction.
* Machine-level concerns (actual HTTP, subprocess spawning, the real
  filesystem) are modelled by explicit oracles ("worlds") supplying the
  outcome of each external call; the control flow around those calls is
  translated statement by statement from the source.
-/

namespace Xref

/-! ## JSON values as produced by `json.loads`

The semantic matcher parses the model's reply with `json.loads`; the
resulting Python value is a composition of `None`, booleans, numbers,
strings, lists and dicts.  Numbers are modelled as integers (the float
case behaves identically for this code: it is neither `str` nor `list`
nor `dict`, so it is discarded everywhere). -/

inductive Json where
  | null : Json
  | bool (b : Bool) : Json
  | num (n : Int) : Json
  | str (s : String) : Json
  | arr (items : List Json) : Json
  | obj (fields : List (String × Json)) : Json

/-- `d[k] = v` insertion as performed while `json.loads` builds a dict:
a later duplicate key overwrites the earlier value in place, keeping the
first-occurrence position. -/
def dictInsert (d : List (String × Json)) (k : String) (v : Json) :
    List (String × Json) :=
  if d.any (fun p => p.1 = k) then
    d.map (fun p => if p.1 = k then (k, v) else p)
  else
    d ++ [(k, v)]

/-- The Python dict obtained from a JSON object literal: keys are unique,
later duplicates win, insertion order is first-occurrence order. -/
def pythonDict (fields : List (String × Json)) : List (String × Json) :=
  fields.foldl (fun d p => dictInsert d p.1 p.2) []

/-- `k in d` / `d[k]` on the (unique-key) Python dict. -/
def dictGet (d : List (String × Json)) (k : String) : Option Json :=
  (d.find? (fun p => p.1 = k)).map Prod.snd

/-! ## `get_fixed_bug_ids` (`llm_xref.py`, lines 80–146) -/

/-- The possible outcomes of one adjudication call, as seen by the
`try` block of `get_fixed_bug_ids`:
* `transportFailure` — the `client.chat.completions.create` call (or any
  other statement before `json.loads`) raised;
* `parseFailure` — `json.loads` raised `JSONDecodeError`;
* `parsed j` — `json.loads` returned the value `j`. -/
inductive ModelResponse where
  | transportFailure : ModelResponse
  | parseFailure : ModelResponse
  | parsed (j : Json) : ModelResponse

/-- `target_keys = ["fixed_ids", "fix_ids", "fixed", "fix"]`. -/
def target_keys : List String := ["fixed_ids", "fix_ids", "fixed", "fix"]

/-- The dict branch of `get_fixed_bug_ids`: scan `target_keys` for the
first key bound to a list.  If no such key exists, `fixed_ids_list` is
never assigned and the subsequent `if not fixed_ids_list:` raises
`UnboundLocalError`, which the enclosing `except Exception` turns into
`[]` — modelled as `none` here.  If the key's list is empty, the
fallback loop takes the first list among the dict's values (in insertion
order). -/
def dictFixedIds (d : List (String × Json)) : Option (List Json) :=
  match target_keys.findSome? (fun k =>
      match dictGet d k with
      | some (Json.arr l) => some l
      | _ => none) with
  | none => none
  | some l =>
    if l.isEmpty then
      match (d.map Prod.snd).findSome? (fun v =>
          match v with
          | Json.arr l2 => some l2
          | _ => none) with
      | some l2 => some l2
      | none => some []
    else some l

/-- The final validation filter:
`[item for item in fixed_ids_list if isinstance(item, str) and item in relevant_bug_ids_list]`. -/
def validateIds (relevant_bug_ids_list : List String) (l : List Json) :
    List String :=
  l.filterMap (fun item =>
    match item with
    | Json.str s => if s ∈ relevant_bug_ids_list then some s else none
    | _ => none)

/-- `get_fixed_bug_ids(commit_message, relevant_bug_ids_list)` as a
function of the adjudication outcome.  The commit message only flows
into the prompt, hence only into which `ModelResponse` the world
produces; the post-processing ignores it. -/
def get_fixed_bug_ids (commit_message : String)
    (relevant_bug_ids_list : List String) (resp : ModelResponse) :
    List String :=
  let _ := commit_message
  match resp with
  | ModelResponse.transportFailure => []
  | ModelResponse.parseFailure => []
  | ModelResponse.parsed j =>
    match j with
    | Json.arr l => validateIds relevant_bug_ids_list l
    | Json.obj fields =>
      match dictFixedIds (pythonDict fields) with
      | none => []
      | some l => validateIds relevant_bug_ids_list l
    | _ => []

/-! ## String helpers

Python-level string operations, implemented over `String.data` so they
evaluate by kernel reduction. -/

/-- Does `needle` occur as a contiguous sublist of `hay`?  Models the
Python `needle in hay` test on strings. -/
def hasSublist (needle : List Char) : List Char → Bool
  | [] => needle.isEmpty
  | c :: rest => needle.isPrefixOf (c :: rest) || hasSublist needle rest

/-- Python `needle in hay` on strings. -/
def strContains (hay needle : String) : Bool :=
  hasSublist needle.data hay.data

/-- The character set passed to `rstrip('.git')`: `rstrip` takes a SET of
characters, so this strips every maximal trailing run drawn from
`{'.', 'g', 'i', 't'}`, not the literal suffix `".git"`. -/
def gitStripChars : List Char := ['.', 'g', 'i', 't']

/-- Python `s.rstrip('.git')`. -/
def rstripGitSet (s : String) : String :=
  ⟨(s.data.reverse.dropWhile (fun c => c ∈ gitStripChars)).reverse⟩

/-! ## Git parent resolution (`llm_xref.py`, lines 149–166) -/

/-- Outcome of the `git rev-list --parents -n 1 <hash>` subprocess:
either the command failed (`CalledProcessError`, timeout, …) or it
succeeded and its stdout, after `.strip().split()`, is a list of
whitespace-free non-empty tokens: the commit hash followed by its
parents. -/
inductive GitRevListResult where
  | failure : GitRevListResult
  | output (parts : List String) : GitRevListResult

/-- `get_git_parent(commit_hash, repo_dir)`: returns the unique parent,
`none` for a root commit (one token), a merge commit (three or more
tokens) or a failed subprocess. -/
def get_git_parent (res : GitRevListResult) : Option String :=
  match res with
  | GitRevListResult.failure => none
  | GitRevListResult.output parts =>
    if parts.length > 1 then
      if parts.length > 2 then none else parts.get? 1
    else none

/-! ## Commit URL constructors (`llm_xref.py`, lines 168–182) -/

/-- `construct_commit_url(repo_url, commit_hash)`. -/
def construct_commit_url (repo_url commit_hash : String) : String :=
  if repo_url = "" || commit_hash = "" then "NA"
  else
    let base_url := rstripGitSet repo_url
    if strContains repo_url "github.com" then
      base_url ++ "/tree/" ++ commit_hash
    else "NA"

/-- `construct_compare_url(repo_url, buggy_hash, fixed_hash)`. -/
def construct_compare_url (repo_url buggy_hash fixed_hash : String) : String :=
  if repo_url = "" || buggy_hash = "" || fixed_hash = "" then "NA"
  else
    let base_url := rstripGitSet repo_url
    if strContains repo_url "github.com" then
      base_url ++ "/compare/" ++ buggy_hash ++ "..." ++ fixed_hash
    else "NA"

/-! ## Pass 2 of `main` (`llm_xref.py`, lines 272–303)

For each completed adjudication future: if the fixed-id list is
non-empty, resolve the unique parent; if it exists, append one
`results_to_write` record per id in the list. -/

/-- One element of `results_to_write`: the dict
`{'p': parent, 'c': commit_hash, 'issue_id': bug_id, 'issue_url': url}`. -/
structure XrefRow where
  p : String
  c : String
  issue_id : String
  issue_url : String
deriving DecidableEq, Repr

/-- `known_bugs_map.get(bug_id, 'NA')`. -/
def knownUrl (known_bugs_map : List (String × String)) (bug_id : String) :
    String :=
  match known_bugs_map.find? (fun kv => kv.1 = bug_id) with
  | some kv => kv.2
  | none => "NA"

/-- The `results_to_write` records contributed by one completed future:
`if fixed_ids:` … `parent = get_git_parent(...)` … `if parent:` … one
record per `bug_id in fixed_ids`.  `if parent:` is Python truthiness:
false for `None` and for the empty string. -/
def rowsForCommit (known_bugs_map : List (String × String))
    (commit_hash : String) (parent : Option String)
    (fixed_ids : List String) : List XrefRow :=
  if fixed_ids.isEmpty then []
  else
    match parent with
    | none => []
    | some p =>
      if p = "" then []
      else fixed_ids.map (fun bug_id =>
        ⟨p, commit_hash, bug_id, knownUrl known_bugs_map bug_id⟩)

/-- The records contributed by one commit, from its `git rev-list`
outcome and its adjudication outcome (ties lines 149–166 to 288–299). -/
def entriesForCommit (known_bugs_map : List (String × String))
    (commit_hash : String) (message : String) (rev : GitRevListResult)
    (relevant_ids : List String) (resp : ModelResponse) : List XrefRow :=
  rowsForCommit known_bugs_map commit_hash (get_git_parent rev)
    (get_fixed_bug_ids message relevant_ids resp)

/-! ## Decimal integers

`int(s)` and `str(v)` restricted to ASCII decimal literals, as used for
the `vid` column of the ledger. -/

/-- `48 ≤ c ≤ 57`, i.e. `c ∈ '0'..'9'`. -/
def isDigitChar (c : Char) : Bool :=
  48 ≤ c.toNat && c.toNat ≤ 57

/-- Numeric value of a digit character. -/
def digitVal (c : Char) : Nat := c.toNat - 48

/-- Decimal accumulation (most significant digit first). -/
def digitsToNat : List Char → Nat → Nat
  | [], acc => acc
  | c :: cs, acc => digitsToNat cs (acc * 10 + digitVal c)

/-- Parse a non-empty all-digit character list. -/
def parseNatDigits? (l : List Char) : Option Nat :=
  if l ≠ [] ∧ l.all isDigitChar then some (digitsToNat l 0) else none

/-- Python `s.strip()` (both-ends whitespace strip), as performed by
`int()` before parsing. -/
def pyStrip (l : List Char) : List Char :=
  ((l.dropWhile Char.isWhitespace).reverse.dropWhile Char.isWhitespace).reverse

/-- `int(s)` on ASCII decimal literals with an optional sign and
surrounding whitespace; `none` models `ValueError`.  (An empty stripped
string falls into the last branch, where `parseNatDigits? [] = none`.) -/
def pyInt? (s : String) : Option Int :=
  if (pyStrip s.data).head? = some '-' then
    Option.map (fun n : Nat => -(n : Int)) (parseNatDigits? (pyStrip s.data).tail)
  else if (pyStrip s.data).head? = some '+' then
    Option.map (fun n : Nat => (n : Int)) (parseNatDigits? (pyStrip s.data).tail)
  else Option.map (fun n : Nat => (n : Int)) (parseNatDigits? (pyStrip s.data))

/-- The decimal digit characters. -/
def digitChar (d : Nat) : Char :=
  match d with
  | 0 => '0' | 1 => '1' | 2 => '2' | 3 => '3' | 4 => '4'
  | 5 => '5' | 6 => '6' | 7 => '7' | 8 => '8' | _ => '9'

/-- Decimal digits of `n`, least significant first (`[]` for `0`); the
fuel argument (any bound on `n`) keeps the recursion structural. -/
def natToRevDigitsAux : Nat → Nat → List Char
  | _, 0 => []
  | 0, _ + 1 => []
  | n + 1, fuel + 1 =>
    digitChar ((n + 1) % 10) :: natToRevDigitsAux ((n + 1) / 10) fuel

/-- Decimal digits of `n`, least significant first (`[]` for `0`). -/
def natToRevDigits (n : Nat) : List Char := natToRevDigitsAux n n

/-- `str(n)` for a natural number. -/
def natToStr (n : Nat) : String :=
  if n = 0 then "0" else ⟨(natToRevDigits n).reverse⟩

/-- `str(v)` for a Python int. -/
def intToStr (v : Int) : String :=
  if v < 0 then "-" ++ natToStr v.natAbs else natToStr v.natAbs

/-! ## Pass 3 of `main`: the ledger write (`llm_xref.py`, lines 305–348) -/

/-- The on-disk ledger file before the run: absent, or present with its
CSV records and byte size. -/
inductive LedgerFileState where
  | absent : LedgerFileState
  | present (recs : List (List String)) (size : Nat) : LedgerFileState

/-- `file_is_empty = (not os.path.exists(f)) or (os.path.getsize(f) < 10)`. -/
def fileIsEmpty : LedgerFileState → Bool
  | LedgerFileState.absent => true
  | LedgerFileState.present _ size => size < 10

/-- The fallback `ACTIVE_BUGS_HEADER` written when `import config` fails
(`config.py` is not part of the repository; the spec's §6 header names
the same nine columns). -/
def activeBugsHeader : List String :=
  ["bug.id", "project_id", "revision.id.buggy", "revision.id.fixed",
   "report.id", "report.url", "buggy_commit_url", "fixed_commit_url",
   "compare_url"]

/-- `int(last_line[0])` on a CSV record, `none` when the record is empty
(`IndexError`) or the field does not parse (`ValueError`); both are
swallowed by the surrounding `except Exception: pass`. -/
def recVid? (rec : List String) : Option Int :=
  pyInt? (rec.headD "")

/-- `vid_start`: 1 when the file is absent or under 10 bytes; otherwise
read the file, skip the header record, take the last remaining record
and parse its first field, falling back to 1 on any exception. -/
def vidStart (file : LedgerFileState) : Int :=
  match file with
  | LedgerFileState.absent => 1
  | LedgerFileState.present recs size =>
    if size < 10 then 1
    else
      match recs with
      | [] => 1
      | _ :: dataRows =>
        match dataRows.getLast? with
        | none => 1
        | some last =>
          match recVid? last with
          | some v => v + 1
          | none => 1

/-- One written ledger record:
`[vid, project_id, buggy_hash, fixed_hash, issue_id, issue_url, buggy_url, fixed_url, compare_url]`
(the csv writer stringifies the integer `vid`). -/
def mkLedgerRecord (project_id repo_url : String) (vid : Int)
    (r : XrefRow) : List String :=
  [intToStr vid, project_id, r.p, r.c, r.issue_id, r.issue_url,
   construct_commit_url repo_url r.p,
   construct_commit_url repo_url r.c,
   construct_compare_url repo_url r.p r.c]

/-- `for i, row in enumerate(results_to_write): vid = vid_start + i; writerow(...)`. -/
def appendedRecords (project_id repo_url : String) (vid_start : Int) :
    List XrefRow → List (List String)
  | [] => []
  | r :: rs =>
    mkLedgerRecord project_id repo_url vid_start r ::
      appendedRecords project_id repo_url (vid_start + 1) rs

/-- The full record sequence of the ledger file after the run: the file
is opened in append mode, the header is appended first when the file was
absent or under 10 bytes, then the new records. -/
def ledgerWrite (file : LedgerFileState) (project_id repo_url : String)
    (rows : List XrefRow) : List (List String) :=
  let oldRecs :=
    match file with
    | LedgerFileState.absent => []
    | LedgerFileState.present recs _ => recs
  let base := if fileIsEmpty file then oldRecs ++ [activeBugsHeader] else oldRecs
  base ++ appendedRecords project_id repo_url (vidStart file) rows

/-- The contiguous vid block `[start, start+1, …, start+n-1]`. -/
def blockVids (start : Int) (n : Nat) : List Int :=
  (List.range n).map (fun i : Nat => start + (i : Int))

/-! ## Completion order of the worker pool (`llm_xref.py`, lines 272–303)

`as_completed` yields the futures in completion order; each yielded
future appends its records to `results_to_write`.  The batch of
submitted tasks is fixed; a completion order is a permutation of it. -/

/-- One submitted task: `(commit_hash, commit_message, bug_ids_list)`. -/
structure XrefTask where
  commit_hash : String
  message : String
  relevant_ids : List String
deriving DecidableEq, Repr

/-- `results_to_write` as built by the `as_completed` loop, given the
(deterministic) per-commit outcomes of `git rev-list` and of the model
call, and the order in which the futures complete. -/
def collectResults (known_bugs_map : List (String × String))
    (revOf : String → GitRevListResult) (respOf : String → ModelResponse)
    (completionOrder : List XrefTask) : List XrefRow :=
  completionOrder.flatMap (fun t =>
    entriesForCommit known_bugs_map t.commit_hash t.message
      (revOf t.commit_hash) t.relevant_ids (respOf t.commit_hash))

end Xref

namespace Miner

open Xref (strContains)

/-! ## `fast_bug_miner.py`: the per-project orchestrator

`process_project` runs the stage sequence `CLONE_REPO →
FETCH_ISSUE_INDEX → COLLECT_LOG → CROSS_REFERENCE →
MATERIALIZE_ARTIFACTS`, skipping each stage whose output artifact is
already present.  External calls (network, subprocesses) are modelled by
an oracle `MinerWorld`; the function returns whether the project
succeeded, the resulting filesystem state, and the trace of external
calls issued. -/

/-- One input record of the batch file. -/
structure ProjSpec where
  project_id : String
  project_name : String
  repository_url : String
  issue_tracker_name : String
  issue_tracker_project_id : String
  bug_fix_regex : String
  sub_project_path : String
  tracker_base_url : Option String

/-- One data row of `active-bugs.csv`, projected to the four columns
stage 4 reads (`bug.id`, `revision.id.buggy`, `revision.id.fixed`,
`report.url`; `config.py` is absent from the repository, the column
names are those of the spec §6 / the fallback header). -/
structure CsvRow where
  bug_id : String
  commit_buggy : String
  commit_fixed : String
  report_url : String
deriving DecidableEq, Repr

/-- The per-project on-disk state visible to `process_project`. -/
structure FsState where
  repoMirror : Bool
  issuesFileSize : Option Nat
  gitlog : Bool
  ledger : Option (List CsvRow)
  reports : List (String × String)
  timelines : List String
  patches : List String
deriving DecidableEq, Repr

/-- An external call: network download or subprocess invocation. -/
inductive ExtCall where
  | gitClone : ExtCall
  | downloadIssues : ExtCall
  | gitLog : ExtCall
  | crossReference : ExtCall
  | httpReport (bug_id : String) : ExtCall
  | httpTimeline (bug_id : String) : ExtCall
  | gitDiff (bug_id : String) : ExtCall
deriving DecidableEq, Repr

/-- Oracle for the outcomes of external calls. -/
structure MinerWorld where
  cloneOk : Bool
  issuesOk : Bool
  issuesSize : Nat
  gitlogOk : Bool
  xrefOk : Bool
  xrefRows : List CsvRow
  reportOk : String → Bool
  reportTimelineUrl : String → Option String
  timelineOk : String → Bool
  diffOutput : String → Option String

/-- Python truthiness of an optional string. -/
def truthyOpt : Option String → Bool
  | none => false
  | some s => s ≠ ""

/-- The report-extension condition of stage 4 (with Python's
`and`-over-`or` precedence):
`('jira' in url and ('.atlassian.net' in url or 'issues.apache.org/jira/' in url or (tb and 'jira' in tb))) or ('bugzilla' in url and 'bz.apache.org/bugzilla' in url or (tb and 'bugzilla' in tb))`. -/
def extIsXml (report_url : String) (tracker_base_url : Option String) : Bool :=
  (strContains report_url "jira" &&
    (strContains report_url ".atlassian.net" ||
     strContains report_url "issues.apache.org/jira/" ||
     (truthyOpt tracker_base_url &&
      strContains (tracker_base_url.getD "") "jira")))
  || (strContains report_url "bugzilla" &&
      strContains report_url "bz.apache.org/bugzilla")
  || (truthyOpt tracker_base_url &&
      strContains (tracker_base_url.getD "") "bugzilla")

/-- The extension chosen for a report file. -/
def reportExt (report_url : String) (tracker_base_url : Option String) : String :=
  if extIsXml report_url tracker_base_url then ".xml" else ".json"

/-- Whether step 4a treats the row's report URL as usable
(`if not report_url or report_url == "NA": skip`). -/
def urlUsable (report_url : String) : Bool :=
  !(report_url = "" || report_url = "NA")

/-- Step 4a for one row: download the report if the URL is usable and
the file is missing. -/
def reportStep (spec : ProjSpec) (w : MinerWorld) (s : FsState)
    (row : CsvRow) : FsState × List ExtCall :=
  let ext := reportExt row.report_url spec.tracker_base_url
  if urlUsable row.report_url then
    if (row.bug_id, ext) ∈ s.reports then (s, [])
    else
      if w.reportOk row.bug_id then
        ({ s with reports := s.reports ++ [(row.bug_id, ext)] },
         [ExtCall.httpReport row.bug_id])
      else (s, [ExtCall.httpReport row.bug_id])
  else (s, [])

/-- Step 4a.1 for one row: when the (now existing) `.json` report names
a non-empty `timeline_url` and the timeline file is missing, download
it.  (`if timeline_url:` is Python truthiness, empty string is false.) -/
def timelineStep (spec : ProjSpec) (w : MinerWorld) (s : FsState)
    (row : CsvRow) : FsState × List ExtCall :=
  let ext := reportExt row.report_url spec.tracker_base_url
  if ext = ".json" && urlUsable row.report_url
      && decide ((row.bug_id, ext) ∈ s.reports) then
    if row.bug_id ∈ s.timelines then (s, [])
    else
      match w.reportTimelineUrl row.bug_id with
      | none => (s, [])
      | some u =>
        if u = "" then (s, [])
        else if w.timelineOk row.bug_id then
          ({ s with timelines := s.timelines ++ [row.bug_id] },
           [ExtCall.httpTimeline row.bug_id])
        else (s, [ExtCall.httpTimeline row.bug_id])
  else (s, [])

/-- Step 4b for one row: generate the patch via `git diff` when both
hashes are present and the patch file is missing; a `CalledProcessError`
leaves no file, a successful (even empty) diff is written. -/
def patchStep (w : MinerWorld) (s : FsState) (row : CsvRow) :
    FsState × List ExtCall :=
  if row.commit_buggy = "" || row.commit_fixed = "" then (s, [])
  else if row.bug_id ∈ s.patches then (s, [])
  else
    match w.diffOutput row.bug_id with
    | none => (s, [ExtCall.gitDiff row.bug_id])
    | some _ =>
      ({ s with patches := s.patches ++ [row.bug_id] },
       [ExtCall.gitDiff row.bug_id])

/-- Stage 4 body for a single ledger row: report, timeline, patch. -/
def materializeRow (spec : ProjSpec) (w : MinerWorld) (s : FsState)
    (row : CsvRow) : FsState × List ExtCall :=
  let (s1, calls1) := reportStep spec w s row
  let (s2, calls2) := timelineStep spec w s1 row
  let (s3, calls3) := patchStep w s2 row
  (s3, calls1 ++ calls2 ++ calls3)

/-- Stage 4 over all ledger rows. -/
def materializeAll (spec : ProjSpec) (w : MinerWorld) :
    FsState → List CsvRow → FsState × List ExtCall
  | s, [] => (s, [])
  | s, row :: rest =>
    let (s1, c1) := materializeRow spec w s row
    let (s2, c2) := materializeAll spec w s1 rest
    (s2, c1 ++ c2)

/-- Stages `CROSS_REFERENCE` → `MATERIALIZE_ARTIFACTS` (3d and 4): when
the ledger file is absent its header is written and the xref subprocess
invoked (on failure the file is left header-only); then stage 4 iterates
every row currently in the ledger. -/
def stageXref (spec : ProjSpec) (w : MinerWorld) (s : FsState)
    (acc : List ExtCall) : Bool × FsState × List ExtCall :=
  match s.ledger with
  | some rows =>
    let (s2, c2) := materializeAll spec w s rows
    (true, s2, acc ++ c2)
  | none =>
    if w.xrefOk then
      let s1 : FsState := { s with ledger := some w.xrefRows }
      let (s2, c2) := materializeAll spec w s1 w.xrefRows
      (true, s2, acc ++ [ExtCall.crossReference] ++ c2)
    else (false, { s with ledger := some [] },
      acc ++ [ExtCall.crossReference])

/-- Stage `COLLECT_LOG` (3c): skipped when the log snapshot exists; on
subprocess failure `exec_cmd` removes the partial output file. -/
def stageLog (spec : ProjSpec) (w : MinerWorld) (s : FsState)
    (acc : List ExtCall) : Bool × FsState × List ExtCall :=
  if s.gitlog then stageXref spec w s acc
  else if w.gitlogOk then
    stageXref spec w { s with gitlog := true } (acc ++ [ExtCall.gitLog])
  else (false, s, acc ++ [ExtCall.gitLog])

/-- Stage `FETCH_ISSUE_INDEX` (3b): skipped when the shared issues file
exists and is non-empty. -/
def stageIssues (spec : ProjSpec) (w : MinerWorld) (s : FsState)
    (acc : List ExtCall) : Bool × FsState × List ExtCall :=
  if s.issuesFileSize = none ∨ s.issuesFileSize = some 0 then
    if w.issuesOk then
      stageLog spec w { s with issuesFileSize := some w.issuesSize }
        (acc ++ [ExtCall.downloadIssues])
    else (false, s, acc ++ [ExtCall.downloadIssues])
  else stageLog spec w s acc

/-- `process_project`: the stage sequence with per-stage artifact
checks, starting with `CLONE_REPO` (3a).  Returns
`(success, final state, external calls issued)`. -/
def process_project (spec : ProjSpec) (w : MinerWorld) (s : FsState) :
    Bool × FsState × List ExtCall :=
  if s.repoMirror then stageIssues spec w s []
  else if w.cloneOk then
    stageIssues spec w { s with repoMirror := true } [ExtCall.gitClone]
  else (false, s, [ExtCall.gitClone])

/-! ## `main` of `fast_bug_miner.py` (lines 344–369): the batch loop -/

/-- The directory state `main` manipulates: per-project output
directories and the shared cache directories. -/
structure BatchState where
  outputDirs : List String
  cacheDirs : List String
deriving DecidableEq, Repr

/-- `os.makedirs(d, exist_ok=True)`. -/
def addDir (dirs : List String) (d : String) : List String :=
  if d ∈ dirs then dirs else dirs ++ [d]

/-- How one project's `process_project` call ends, as seen by `main`:
* `success` / `failure` — the function's two return values (`failure`
  covers every handled stage failure: clone, issue download, git log,
  xref subprocess, or an `IOError` while reading the ledger);
* `uncaughtError` — an exception escapes `process_project`.  The
  stage-4 `git diff` runs with `timeout=5400` and its handler catches
  only `subprocess.CalledProcessError`, so a `subprocess.TimeoutExpired`
  is caught neither there nor by the `except IOError` around stage 4;
  it propagates into `main`. -/
inductive ProjectOutcome where
  | success : ProjectOutcome
  | failure : ProjectOutcome
  | uncaughtError : ProjectOutcome
deriving DecidableEq, Repr

/-- The batch loop of `main` (lines 316–380).  Per input line the
project's output directory is created (the `os.makedirs` calls inside
`process_project`); a `False` return triggers
`shutil.rmtree(output_project_dir)` — and nothing else — before the
loop falls through to the next line; an exception escaping
`process_project` reaches `main`'s outer `except Exception` (line 374),
which logs and `sys.exit(1)`s: no cleanup runs and no further project
is processed.  Returns the final directory state, the attempted project
ids in order, and whether the run aborted. -/
def runBatch (outcome : String → ProjectOutcome) (st : BatchState) :
    List String → BatchState × List String × Bool
  | [] => (st, [], false)
  | pid :: rest =>
    let st1 : BatchState := { st with outputDirs := addDir st.outputDirs pid }
    match outcome pid with
    | ProjectOutcome.success =>
      let (fin, proc, ab) := runBatch outcome st1 rest
      (fin, pid :: proc, ab)
    | ProjectOutcome.failure =>
      let st2 : BatchState :=
        { st1 with outputDirs := st1.outputDirs.filter (fun d => d ≠ pid) }
      let (fin, proc, ab) := runBatch outcome st2 rest
      (fin, pid :: proc, ab)
    | ProjectOutcome.uncaughtError => (st1, [pid], true)

end Miner

namespace Utils

/-! ## `utils.download_report_data` (lines 87–137) and the patch step of
`fast_bug_miner.process_project` (lines 263–285) -/

/-- `max_app_retries = 4`. -/
def max_app_retries : Nat := 4

/-- The retry loop: try attempts `start, start+1, …` while `remaining`
is positive, returning the first successful response text. The source
returns `False` (after deleting the target file) from inside the loop
when the last attempt fails. -/
def firstSuccessIn (attempts : Nat → Option String) :
    Nat → Nat → Option String
  | _, 0 => none
  | start, r + 1 =>
    match attempts start with
    | some t => some t
    | none => firstSuccessIn attempts (start + 1) r

/-- Result of `download_report_data`: the returned boolean and the state
of the target file after the call (`none` = does not exist). -/
structure DownloadResult where
  success : Bool
  fileContents : Option String
deriving DecidableEq, Repr

/-- `download_report_data(uri, save_to, ...)`: up to four attempts; on
the first success the response text is written to `save_to`; when the
final attempt fails the partially/previously present `save_to` is
removed and the call returns `False`. -/
def download_report_data (attempts : Nat → Option String)
    (preexisting : Option String) : DownloadResult :=
  let _ := preexisting
  match firstSuccessIn attempts 0 max_app_retries with
  | some t => ⟨true, some t⟩
  | none => ⟨false, none⟩

/-- Outcome of the `git diff` subprocess for one patch. -/
inductive GitDiffOutcome where
  | processError : GitDiffOutcome
  | output (text : String) : GitDiffOutcome

/-- The patch file after the per-row patch step (reached only when the
file did not already exist): on `CalledProcessError` the exception
handler removes the (never written) file; on success the stdout is
written — a zero-length diff only triggers a warning and the empty file
is kept. -/
def patchFileAfter (existing : Option String) (diff : GitDiffOutcome) :
    Option String :=
  match existing with
  | some content => some content
  | none =>
    match diff with
    | GitDiffOutcome.processError => none
    | GitDiffOutcome.output text => some text

end Utils

/-! # Theorems -/

open Xref Miner Utils

/-- The validation filter only lets through strings that are members of
`relevant_bug_ids_list`. -/
theorem validateIds_subset (rel : List String) (l : List Json) :
    validateIds rel l ⊆ rel := by
  intro a ha
  simp only [validateIds, List.mem_filterMap] at ha
  obtain ⟨item, -, hit⟩ := ha
  cases item with
  | str s =>
    have hit' : (if s ∈ rel then some s else none) = some a := hit
    by_cases hs : s ∈ rel
    · rw [if_pos hs] at hit'
      cases hit'
      exact hs
    · rw [if_neg hs] at hit'
      exact absurd hit' (by simp)
  | null => exact absurd hit (by simp)
  | bool b => exact absurd hit (by simp)
  | num n => exact absurd hit (by simp)
  | arr items => exact absurd hit (by simp)
  | obj fields => exact absurd hit (by simp)

/-- C1: For every commit message and every supplied list of relevant
issue ids, the semantic matcher's returned fixed-id set is a subset of
the supplied `relevant_ids`, for every possible model response,
including adversarial or malformed output: ids outside the list,
non-string items and wrong JSON shapes are discarded. -/
theorem C1_matcher_containment (commit_message : String)
    (relevant_bug_ids_list : List String) (resp : ModelResponse) :
    get_fixed_bug_ids commit_message relevant_bug_ids_list resp
      ⊆ relevant_bug_ids_list := by
  cases resp with
  | transportFailure => intro a ha; exact absurd ha (by simp [get_fixed_bug_ids])
  | parseFailure => intro a ha; exact absurd ha (by simp [get_fixed_bug_ids])
  | parsed j =>
    cases j with
    | arr l => exact validateIds_subset _ l
    | obj fields =>
      show (match dictFixedIds (pythonDict fields) with
            | none => []
            | some l => validateIds relevant_bug_ids_list l) ⊆ _
      cases dictFixedIds (pythonDict fields) with
      | none => intro a ha; exact absurd ha (by simp)
      | some l => exact validateIds_subset _ l
    | null => intro a ha; exact absurd ha (by simp [get_fixed_bug_ids])
    | bool b => intro a ha; exact absurd ha (by simp [get_fixed_bug_ids])
    | num n => intro a ha; exact absurd ha (by simp [get_fixed_bug_ids])
    | str s => intro a ha; exact absurd ha (by simp [get_fixed_bug_ids])

/-- C1 witness: the spec's own adversarial example — the model returns
`["42", "999"]` while `relevant_ids = ["42"]`. -/
theorem C1_matcher_containment_witness :
    get_fixed_bug_ids "Fix #42 and #999" ["42"]
        (ModelResponse.parsed (Json.arr [Json.str "42", Json.str "999"]))
      ⊆ ["42"] :=
  C1_matcher_containment "Fix #42 and #999" ["42"]
    (ModelResponse.parsed (Json.arr [Json.str "42", Json.str "999"]))

/-- C4: a model response that cannot be parsed as the expected
structured data (JSON parse error, unexpected top-level type, or a dict
bearing none of the recognised list-valued keys) and a failed transport
call all yield the empty fixed-id list for that commit; the embedded
function is total, so no exception can escape and abort the batch. -/
theorem C4_fail_closed (msg : String) (rel : List String) :
    get_fixed_bug_ids msg rel ModelResponse.transportFailure = []
    ∧ get_fixed_bug_ids msg rel ModelResponse.parseFailure = []
    ∧ get_fixed_bug_ids msg rel (ModelResponse.parsed Json.null) = []
    ∧ (∀ b, get_fixed_bug_ids msg rel (ModelResponse.parsed (Json.bool b)) = [])
    ∧ (∀ n, get_fixed_bug_ids msg rel (ModelResponse.parsed (Json.num n)) = [])
    ∧ (∀ s, get_fixed_bug_ids msg rel (ModelResponse.parsed (Json.str s)) = [])
    ∧ (∀ fields, dictFixedIds (pythonDict fields) = none →
        get_fixed_bug_ids msg rel (ModelResponse.parsed (Json.obj fields)) = []) := by
  refine ⟨rfl, rfl, rfl, fun b => rfl, fun n => rfl, fun s => rfl, fun fields h => ?_⟩
  show (match dictFixedIds (pythonDict fields) with
        | none => []
        | some l => validateIds rel l) = []
  rw [h]

/-- C4 witness: a dict of the wrong shape (no recognised key) yields `[]`. -/
theorem C4_fail_closed_witness :
    get_fixed_bug_ids "m" ["42"] ModelResponse.parseFailure = []
    ∧ get_fixed_bug_ids "m" ["42"]
        (ModelResponse.parsed (Json.obj [("ids", Json.arr [Json.str "42"])])) = [] :=
  ⟨(C4_fail_closed "m" ["42"]).2.1,
   (C4_fail_closed "m" ["42"]).2.2.2.2.2.2 [("ids", Json.arr [Json.str "42"])] rfl⟩

/-! ## Decimal roundtrip: `int(str(v)) = v` -/

theorem digitsToNat_append (l : List Char) (c : Char) (acc : Nat) :
    digitsToNat (l ++ [c]) acc = 10 * digitsToNat l acc + digitVal c := by
  induction l generalizing acc with
  | nil => simp [digitsToNat]; omega
  | cons x xs ih => simp only [List.cons_append, digitsToNat]; exact ih _

theorem digitVal_digitChar (d : Nat) (hd : d < 10) :
    digitVal (digitChar d) = d := by
  interval_cases d <;> decide

theorem isDigitChar_digitChar (d : Nat) (hd : d < 10) :
    isDigitChar (digitChar d) = true := by
  interval_cases d <;> decide

theorem natToRevDigitsAux_all_digits (fuel : Nat) :
    ∀ n, n ≤ fuel → ∀ c ∈ natToRevDigitsAux n fuel, isDigitChar c = true := by
  induction fuel with
  | zero => intro n _ c hc; simp [natToRevDigitsAux] at hc
  | succ f ih =>
    intro n hn c hc
    match n with
    | 0 => simp [natToRevDigitsAux] at hc
    | m + 1 =>
      rw [natToRevDigitsAux] at hc
      rcases List.mem_cons.mp hc with rfl | hc'
      · exact isDigitChar_digitChar _ (Nat.mod_lt _ (by omega))
      · exact ih ((m + 1) / 10)
          (by have := Nat.div_lt_self (Nat.succ_pos m) (by omega : 1 < 10); omega)
          c hc'

theorem natToRevDigits_all_digits (n : Nat) :
    ∀ c ∈ natToRevDigits n, isDigitChar c = true :=
  natToRevDigitsAux_all_digits n n (Nat.le_refl n)

theorem digitsToNat_reverse_natToRevDigitsAux (fuel : Nat) :
    ∀ n, n ≤ fuel → digitsToNat (natToRevDigitsAux n fuel).reverse 0 = n := by
  induction fuel with
  | zero =>
    intro n hn
    have : n = 0 := by omega
    subst this
    rfl
  | succ f ih =>
    intro n hn
    match n with
    | 0 => rfl
    | m + 1 =>
      rw [natToRevDigitsAux, List.reverse_cons, digitsToNat_append,
        ih ((m + 1) / 10)
          (by have := Nat.div_lt_self (Nat.succ_pos m) (by omega : 1 < 10); omega),
        digitVal_digitChar _ (Nat.mod_lt _ (by omega))]
      omega

theorem digitsToNat_reverse_natToRevDigits (n : Nat) :
    digitsToNat (natToRevDigits n).reverse 0 = n :=
  digitsToNat_reverse_natToRevDigitsAux n n (Nat.le_refl n)

theorem natToRevDigits_ne_nil (n : Nat) (hn : n ≠ 0) :
    natToRevDigits n ≠ [] := by
  match n with
  | 0 => exact absurd rfl hn
  | m + 1 => rw [natToRevDigits, natToRevDigitsAux]; simp

theorem parseNatDigits_natToStr (n : Nat) :
    parseNatDigits? (natToStr n).data = some n := by
  by_cases h : n = 0
  · subst h; decide
  · have hdata : (natToStr n).data = (natToRevDigits n).reverse := by
      simp [natToStr, h]
    rw [hdata, parseNatDigits?, if_pos, digitsToNat_reverse_natToRevDigits]
    constructor
    · simp only [ne_eq, List.reverse_eq_nil_iff]
      exact natToRevDigits_ne_nil n h
    · rw [List.all_eq_true]
      intro c hc
      exact natToRevDigits_all_digits n c (List.mem_reverse.mp hc)

theorem not_whitespace_of_digit (c : Char) (h : isDigitChar c = true) :
    c.isWhitespace = false := by
  by_contra hw
  rw [Bool.not_eq_false] at hw
  simp only [Char.isWhitespace, Bool.or_eq_true, decide_eq_true_eq] at hw
  have hcases : c = ' ' ∨ c = '\t' ∨ c = '\r' ∨ c = '\n' := by tauto
  rcases hcases with rfl | rfl | rfl | rfl <;> exact absurd h (by decide)

theorem dropWhile_eq_self_of_none (p : Char → Bool) (l : List Char)
    (h : ∀ c ∈ l, p c = false) : l.dropWhile p = l := by
  cases l with
  | nil => rfl
  | cons a t => rw [List.dropWhile_cons, h a (by simp)]; simp

theorem pyStrip_eq_self (l : List Char)
    (h : ∀ c ∈ l, c.isWhitespace = false) : pyStrip l = l := by
  rw [pyStrip, dropWhile_eq_self_of_none _ _ h,
    dropWhile_eq_self_of_none _ _ (fun c hc => h c (List.mem_reverse.mp hc)),
    List.reverse_reverse]

theorem natToStr_data_digits (n : Nat) :
    ∀ c ∈ (natToStr n).data, isDigitChar c = true := by
  by_cases h : n = 0
  · subst h; decide
  · have hdata : (natToStr n).data = (natToRevDigits n).reverse := by
      simp [natToStr, h]
    rw [hdata]
    intro c hc
    exact natToRevDigits_all_digits n c (List.mem_reverse.mp hc)

theorem natToStr_data_ne_nil (n : Nat) : (natToStr n).data ≠ [] := by
  by_cases h : n = 0
  · subst h; decide
  · have hdata : (natToStr n).data = (natToRevDigits n).reverse := by
      simp [natToStr, h]
    rw [hdata]
    simp only [ne_eq, List.reverse_eq_nil_iff]
    exact natToRevDigits_ne_nil n h

theorem pyInt_natToStr (n : Nat) : pyInt? (natToStr n) = some (n : Int) := by
  have hstrip : pyStrip (natToStr n).data = (natToStr n).data :=
    pyStrip_eq_self _ (fun c hc => not_whitespace_of_digit c (natToStr_data_digits n c hc))
  obtain ⟨c, rest, hcr⟩ : ∃ c rest, (natToStr n).data = c :: rest := by
    cases hd : (natToStr n).data with
    | nil => exact absurd hd (natToStr_data_ne_nil n)
    | cons c rest => exact ⟨c, rest, rfl⟩
  have hdc : isDigitChar c = true :=
    natToStr_data_digits n c (by rw [hcr]; simp)
  have hne1 : c ≠ '-' := by rintro rfl; simp [isDigitChar] at hdc
  have hne2 : c ≠ '+' := by rintro rfl; simp [isDigitChar] at hdc
  rw [pyInt?, hstrip, hcr]
  rw [if_neg (by simp [hne1]), if_neg (by simp [hne2]), ← hcr,
    parseNatDigits_natToStr]
  rfl

/-- `int(str(v)) = v`: the vid written by the csv writer parses back to
itself. -/
theorem pyInt_intToStr (v : Int) : pyInt? (intToStr v) = some v := by
  by_cases hv : v < 0
  · rw [intToStr, if_pos hv]
    have hdata : ("-" ++ natToStr v.natAbs).data = '-' :: (natToStr v.natAbs).data := by
      rfl
    have hstrip : pyStrip ("-" ++ natToStr v.natAbs).data
        = '-' :: (natToStr v.natAbs).data := by
      rw [hdata]
      refine pyStrip_eq_self _ ?_
      intro c hc
      rcases List.mem_cons.mp hc with rfl | hc'
      · decide
      · exact not_whitespace_of_digit c (natToStr_data_digits _ c hc')
    rw [pyInt?, hstrip]
    rw [if_pos (by simp), List.tail_cons, parseNatDigits_natToStr]
    have hv' : -((v.natAbs : Nat) : Int) = v := by omega
    simp only [Option.map_some']
    exact congrArg some hv'
  · rw [intToStr, if_neg hv]
    have hv' : ((v.natAbs : Nat) : Int) = v := by omega
    rw [pyInt_natToStr, hv']

/-! ## The appended vid block -/

theorem recVid_mkLedgerRecord (project_id repo_url : String) (vid : Int)
    (r : XrefRow) :
    recVid? (mkLedgerRecord project_id repo_url vid r) = some vid := by
  rw [recVid?, mkLedgerRecord]
  exact pyInt_intToStr vid

theorem blockVids_succ (start : Int) (n : Nat) :
    blockVids start (n + 1) = start :: blockVids (start + 1) n := by
  simp only [blockVids, List.range_succ_eq_map, List.map_cons, List.map_map]
  congr 1
  · simp
  · apply List.map_congr_left
    intro i _
    simp only [Function.comp_apply]
    push_cast
    ring

theorem appendedRecords_length (project_id repo_url : String)
    (start : Int) (rows : List XrefRow) :
    (appendedRecords project_id repo_url start rows).length = rows.length := by
  induction rows generalizing start with
  | nil => rfl
  | cons r rs ih => simp [appendedRecords, ih]

theorem appendedRecords_vids (project_id repo_url : String)
    (start : Int) (rows : List XrefRow) :
    (appendedRecords project_id repo_url start rows).map recVid?
      = (blockVids start rows.length).map some := by
  induction rows generalizing start with
  | nil => rfl
  | cons r rs ih =>
    rw [appendedRecords, List.map_cons, recVid_mkLedgerRecord,
      List.length_cons, blockVids_succ, List.map_cons, ih]

theorem blockVids_pairwise (start : Int) (n : Nat) :
    (blockVids start n).Pairwise (· < ·) := by
  refine List.Pairwise.map _ ?_ (List.pairwise_lt_range n)
  intro a b hab
  omega

theorem blockVids_mem_ge (start : Int) (n : Nat) (x : Int)
    (hx : x ∈ blockVids start n) : start ≤ x := by
  simp only [blockVids, List.mem_map] at hx
  obtain ⟨i, -, rfl⟩ := hx
  omega

theorem pairwise_mem_le_getLast : ∀ {l : List Int},
    l.Pairwise (· < ·) → ∀ {x m : Int}, x ∈ l →
    l.getLast? = some m → x ≤ m := by
  intro l
  induction l with
  | nil => intro _ x m hx _; cases hx
  | cons a t ih =>
    intro hp x m hx hm
    rcases List.mem_cons.mp hx with rfl | hx'
    · cases t with
      | nil =>
        simp only [List.getLast?_singleton, Option.some.injEq] at hm
        omega
      | cons b t' =>
        rw [List.getLast?_cons_cons] at hm
        have hb : x < b := (List.pairwise_cons.mp hp).1 b (by simp)
        have hbm : b ≤ m :=
          ih (List.pairwise_cons.mp hp).2 (by simp) hm
        omega
    · cases t with
      | nil => cases hx'
      | cons b t' =>
        rw [List.getLast?_cons_cons] at hm
        exact ih (List.pairwise_cons.mp hp).2 hx' hm

/-- C2: for a well-formed ledger file (header record followed by data
records whose vids parse and are strictly increasing, at least 10 bytes
long), a run appends a contiguous vid block starting at
(last existing vid + 1); the whole file's vid sequence stays strictly
increasing; and the starting vid falls back to 1 when the file is
absent, under 10 bytes, or header-only. -/
theorem C2_monotonic_vid (hdr : List String) (data : List (List String))
    (size : Nat) (project_id repo_url : String) (rows : List XrefRow)
    (vids : List Int)
    (hsize : 10 ≤ size)
    (hparse : data.map recVid? = vids.map some)
    (hinc : vids.Pairwise (· < ·)) :
    ((appendedRecords project_id repo_url
        (vidStart (LedgerFileState.present (hdr :: data) size)) rows).map recVid?
      = (blockVids (vidStart (LedgerFileState.present (hdr :: data) size))
          rows.length).map some)
    ∧ ((ledgerWrite (LedgerFileState.present (hdr :: data) size)
          project_id repo_url rows).tail.map recVid?
        = (vids ++ blockVids
            (vidStart (LedgerFileState.present (hdr :: data) size))
            rows.length).map some)
    ∧ (vids ++ blockVids (vidStart (LedgerFileState.present (hdr :: data) size))
        rows.length).Pairwise (· < ·)
    ∧ vidStart LedgerFileState.absent = 1
    ∧ (∀ recs sz, sz < 10 → vidStart (LedgerFileState.present recs sz) = 1)
    ∧ (∀ h sz, vidStart (LedgerFileState.present [h] sz) = 1) := by
  have hnotsmall : ¬ size < 10 := by omega
  have hvs : vidStart (LedgerFileState.present (hdr :: data) size)
      = (match data.getLast? with
        | none => 1
        | some last =>
          match recVid? last with
          | some v => v + 1
          | none => 1) := by
    simp only [vidStart]
    rw [if_neg hnotsmall]
  -- the start vid exceeds every existing vid
  have hstart : ∀ x ∈ vids,
      x < vidStart (LedgerFileState.present (hdr :: data) size) := by
    intro x hxv
    have hvne : vids ≠ [] := fun h => by subst h; cases hxv
    obtain ⟨vlast, hvlast⟩ : ∃ v, vids.getLast? = some v := by
      cases hl : vids.getLast? with
      | none => exact absurd (List.getLast?_eq_none_iff.mp hl) hvne
      | some v => exact ⟨v, rfl⟩
    have hmaps := congrArg List.getLast? hparse
    rw [List.getLast?_map, List.getLast?_map, hvlast] at hmaps
    cases hdl : data.getLast? with
    | none => rw [hdl] at hmaps; simp at hmaps
    | some lastRec =>
      rw [hdl] at hmaps
      simp only [Option.map_some'] at hmaps
      have hrec : recVid? lastRec = some vlast := by
        simpa using hmaps
      rw [hvs]
      simp only [hdl, hrec]
      have hxle : x ≤ vlast := pairwise_mem_le_getLast hinc hxv hvlast
      omega
  refine ⟨appendedRecords_vids _ _ _ _, ?_, ?_, rfl,
    fun recs sz hsz => by simp [vidStart, hsz],
    fun h sz => by simp [vidStart]⟩
  · have hfe : fileIsEmpty (LedgerFileState.present (hdr :: data) size) = false := by
      simp only [fileIsEmpty, decide_eq_false_iff_not]
      omega
    simp only [ledgerWrite, hfe, Bool.false_eq_true, if_false]
    rw [List.cons_append, List.tail_cons, List.map_append, hparse,
      appendedRecords_vids, ← List.map_append]
  · rw [List.pairwise_append]
    exact ⟨hinc, blockVids_pairwise _ _, fun a ha b hb =>
      lt_of_lt_of_le (hstart a ha) (blockVids_mem_ge _ _ b hb)⟩

/-- C2 witness: a ledger holding one data row with vid 1; the run's
appended block keeps the file-order vid sequence strictly increasing. -/
theorem C2_monotonic_vid_witness :
    ([["1", "p", "a", "b", "42", "u", "x", "y", "z"]].map recVid?
      = [(1 : Int)].map some)
    ∧ ([(1 : Int)] ++ blockVids
        (vidStart (LedgerFileState.present
          [activeBugsHeader, ["1", "p", "a", "b", "42", "u", "x", "y", "z"]] 100))
        1).Pairwise (· < ·) :=
  ⟨by decide,
   (C2_monotonic_vid activeBugsHeader
      [["1", "p", "a", "b", "42", "u", "x", "y", "z"]] 100 "proj"
      "https://github.com/o/r.git" [⟨"p0", "c0", "42", "u42"⟩] [1]
      (by omega) (by decide) (by decide)).2.2.1⟩

/-- C3: a fixing commit with zero parents (`git rev-list` prints one
token) or more than one parent (three or more tokens) never produces a
ledger entry; a commit with exactly one parent `p` whose adjudication
confirmed a non-empty fixed-id list produces entries, and every entry
has `buggy_revision = p` and `fixed_revision = c`. -/
theorem C3_parent_uniqueness (known : List (String × String))
    (c p : String) (fixed_ids : List String)
    (hfix : fixed_ids ≠ []) (hp : p ≠ "") :
    (rowsForCommit known c
        (get_git_parent (GitRevListResult.output [c])) fixed_ids = [])
    ∧ (∀ p2 more, rowsForCommit known c
        (get_git_parent (GitRevListResult.output (c :: p :: p2 :: more)))
        fixed_ids = [])
    ∧ (rowsForCommit known c
        (get_git_parent GitRevListResult.failure) fixed_ids = [])
    ∧ (get_git_parent (GitRevListResult.output [c, p]) = some p)
    ∧ (rowsForCommit known c
        (get_git_parent (GitRevListResult.output [c, p])) fixed_ids ≠ [])
    ∧ (∀ r ∈ rowsForCommit known c
        (get_git_parent (GitRevListResult.output [c, p])) fixed_ids,
        r.p = p ∧ r.c = c) := by
  have hparent : get_git_parent (GitRevListResult.output [c, p]) = some p := by
    simp [get_git_parent]
  have hne : fixed_ids.isEmpty = false := by
    cases fixed_ids with
    | nil => exact absurd rfl hfix
    | cons a t => rfl
  refine ⟨?_, fun p2 more => ?_, ?_, hparent, ?_, ?_⟩
  · simp [rowsForCommit, get_git_parent]
  · have hnone : get_git_parent (GitRevListResult.output (c :: p :: p2 :: more))
        = none := by
      simp only [get_git_parent, List.length_cons]
      rw [if_pos (by omega), if_pos (by omega)]
    simp [rowsForCommit, hnone]
  · simp [rowsForCommit, get_git_parent]
  · simp only [rowsForCommit, hparent]
    simp only [hne, Bool.false_eq_true, if_false, if_neg hp]
    cases fixed_ids with
    | nil => exact absurd rfl hfix
    | cons a t => simp
  · intro r hr
    simp only [rowsForCommit, hparent] at hr
    simp only [hne, Bool.false_eq_true, if_false, if_neg hp] at hr
    obtain ⟨b, -, rfl⟩ := List.mem_map.mp hr
    exact ⟨rfl, rfl⟩

/-- C3 witness: the spec's example — commit `D` with single parent `P`
and issue 42 confirmed yields rows with `buggy = P`, `fixed = D`. -/
theorem C3_parent_uniqueness_witness :
    (rowsForCommit [("42", "u42")] "D"
        (get_git_parent (GitRevListResult.output ["D"])) ["42"] = [])
    ∧ (rowsForCommit [("42", "u42")] "D"
        (get_git_parent (GitRevListResult.output ["D", "P"])) ["42"] ≠ []) :=
  ⟨(C3_parent_uniqueness [("42", "u42")] "D" "P" ["42"]
      (by decide) (by decide)).1,
   (C3_parent_uniqueness [("42", "u42")] "D" "P" ["42"]
      (by decide) (by decide)).2.2.2.2.1⟩

/-- Every row contributed for one commit carries that commit as
`fixed_revision` and an issue id drawn from the fixed-id list. -/
theorem rowsForCommit_mem (known : List (String × String))
    (commit : String) (parent : Option String) (fixed_ids : List String)
    (r : XrefRow) (hr : r ∈ rowsForCommit known commit parent fixed_ids) :
    r.c = commit ∧ r.issue_id ∈ fixed_ids := by
  cases hfe : fixed_ids.isEmpty with
  | true => simp [rowsForCommit, hfe] at hr
  | false =>
    cases parent with
    | none => simp [rowsForCommit, hfe] at hr
    | some p =>
      by_cases hp : p = ""
      · simp [rowsForCommit, hfe, hp] at hr
      · simp only [rowsForCommit, hfe, Bool.false_eq_true, if_false,
          if_neg hp] at hr
        obtain ⟨b, hb, rfl⟩ := List.mem_map.mp hr
        exact ⟨rfl, hb⟩

/-- The issue-id column of the per-commit rows is exactly the fixed-id
list (when any rows are produced at all). -/
theorem rowsForCommit_map_issue (known : List (String × String))
    (commit : String) (parent : Option String) (fixed_ids : List String) :
    (rowsForCommit known commit parent fixed_ids).map XrefRow.issue_id
      = fixed_ids
    ∨ rowsForCommit known commit parent fixed_ids = [] := by
  cases hfe : fixed_ids.isEmpty with
  | true => right; simp [rowsForCommit, hfe]
  | false =>
    cases parent with
    | none => right; simp [rowsForCommit, hfe]
    | some p =>
      by_cases hp : p = ""
      · right; simp [rowsForCommit, hfe, hp]
      · left
        simp only [rowsForCommit, hfe, Bool.false_eq_true, if_false,
          if_neg hp, List.map_map]
        have hcomp : (XrefRow.issue_id ∘ fun bug_id =>
            (⟨p, commit, bug_id, knownUrl known bug_id⟩ : XrefRow))
            = fun b => b := rfl
        rw [hcomp]
        exact List.map_id' fixed_ids

/-- C7 counterexample: the model's (validated) list is not deduplicated,
so a response naming the same id twice appends two identical ledger rows
for one `(fixed_revision, issue_id)` pair in a single run. -/
theorem C7_duplicate_rows_counterexample :
    ¬ (((entriesForCommit [("42", "u42")] "c1" "Fix #42 twice"
          (GitRevListResult.output ["c1", "p0"]) ["42"]
          (ModelResponse.parsed
            (Json.arr [Json.str "42", Json.str "42"]))).filter
            (fun r => r.c == "c1" && r.issue_id == "42")).length ≤ 1) := by
  decide

/-- C7 amended: a commit contributes one row per occurrence of an id in
the validated model list — hence at most one row per issue whenever that
list is duplicate-free — and all of a commit's rows share its hash as
`fixed_revision`, one row per distinct issue it fixes. -/
theorem C7_amended_per_issue_rows (known : List (String × String))
    (commit : String) (parent : Option String) (fixed_ids : List String)
    (hnd : fixed_ids.Nodup) :
    (∀ issue, List.count issue
        ((rowsForCommit known commit parent fixed_ids).map XrefRow.issue_id)
        ≤ 1)
    ∧ (∀ r ∈ rowsForCommit known commit parent fixed_ids, r.c = commit)
    ∧ (∀ p, parent = some p → p ≠ "" → fixed_ids ≠ [] →
        (rowsForCommit known commit parent fixed_ids).map XrefRow.issue_id
          = fixed_ids) := by
  refine ⟨fun issue => ?_, fun r hr => (rowsForCommit_mem _ _ _ _ r hr).1,
    fun p hp hpne hfne => ?_⟩
  · rcases rowsForCommit_map_issue known commit parent fixed_ids with h | h
    · rw [h]
      exact List.nodup_iff_count_le_one.mp hnd issue
    · simp [h]
  · rcases rowsForCommit_map_issue known commit parent fixed_ids with h | h
    · exact h
    · subst hp
      have hfe : fixed_ids.isEmpty = false := by
        cases fixed_ids with
        | nil => exact absurd rfl hfne
        | cons a t => rfl
      simp only [rowsForCommit, hfe, Bool.false_eq_true, if_false,
        if_neg hpne] at h
      cases fixed_ids with
      | nil => exact absurd rfl hfne
      | cons a t => simp at h

/-- C7 amended witness: two distinct confirmed issues yield two rows
sharing `fixed_revision`, one row each. -/
theorem C7_amended_per_issue_rows_witness :
    (∀ issue, List.count issue
        ((rowsForCommit [("1", "u1"), ("2", "u2")] "c9" (some "p9")
          ["1", "2"]).map XrefRow.issue_id) ≤ 1)
    ∧ (rowsForCommit [("1", "u1"), ("2", "u2")] "c9" (some "p9")
        ["1", "2"]).map XrefRow.issue_id = ["1", "2"] :=
  ⟨(C7_amended_per_issue_rows [("1", "u1"), ("2", "u2")] "c9" (some "p9")
      ["1", "2"] (by decide)).1,
   (C7_amended_per_issue_rows [("1", "u1"), ("2", "u2")] "c9" (some "p9")
      ["1", "2"] (by decide)).2.2 "p9" rfl (by decide) (by decide)⟩

/-- C9 counterexample: `results_to_write` is appended in `as_completed`
(completion) order, so two executions whose adjudication futures finish
in opposite orders write different ledger blocks (same rows, different
order and vid assignment). -/
theorem C9_completion_order_counterexample :
    (collectResults [("1", "u1"), ("2", "u2")]
        (fun c => if c = "c1" then GitRevListResult.output ["c1", "p1"]
                  else GitRevListResult.output ["c2", "p2"])
        (fun c => if c = "c1"
                  then ModelResponse.parsed (Json.arr [Json.str "1"])
                  else ModelResponse.parsed (Json.arr [Json.str "2"]))
        [⟨"c1", "m1", ["1"]⟩, ⟨"c2", "m2", ["2"]⟩]
      ≠ collectResults [("1", "u1"), ("2", "u2")]
        (fun c => if c = "c1" then GitRevListResult.output ["c1", "p1"]
                  else GitRevListResult.output ["c2", "p2"])
        (fun c => if c = "c1"
                  then ModelResponse.parsed (Json.arr [Json.str "1"])
                  else ModelResponse.parsed (Json.arr [Json.str "2"]))
        [⟨"c2", "m2", ["2"]⟩, ⟨"c1", "m1", ["1"]⟩])
    ∧ (appendedRecords "proj" "https://github.com/o/r" 1
        (collectResults [("1", "u1"), ("2", "u2")]
          (fun c => if c = "c1" then GitRevListResult.output ["c1", "p1"]
                    else GitRevListResult.output ["c2", "p2"])
          (fun c => if c = "c1"
                    then ModelResponse.parsed (Json.arr [Json.str "1"])
                    else ModelResponse.parsed (Json.arr [Json.str "2"]))
          [⟨"c1", "m1", ["1"]⟩, ⟨"c2", "m2", ["2"]⟩])
      ≠ appendedRecords "proj" "https://github.com/o/r" 1
        (collectResults [("1", "u1"), ("2", "u2")]
          (fun c => if c = "c1" then GitRevListResult.output ["c1", "p1"]
                    else GitRevListResult.output ["c2", "p2"])
          (fun c => if c = "c1"
                    then ModelResponse.parsed (Json.arr [Json.str "1"])
                    else ModelResponse.parsed (Json.arr [Json.str "2"]))
          [⟨"c2", "m2", ["2"]⟩, ⟨"c1", "m1", ["1"]⟩])) := by
  constructor <;> decide

/-- C9 amended: the CONTENT of the appended block is completion-order
independent — two completion orders that are permutations of the same
task batch yield permutations of the same `results_to_write` rows, of
equal length (hence the same contiguous vid range) — but the row order
itself follows completion order. -/
theorem C9_amended_content_order_independent
    (known : List (String × String)) (revOf : String → GitRevListResult)
    (respOf : String → ModelResponse) (o1 o2 : List XrefTask)
    (h : o1.Perm o2) :
    (collectResults known revOf respOf o1).Perm
      (collectResults known revOf respOf o2)
    ∧ ∀ project_id repo_url start,
        (appendedRecords project_id repo_url start
          (collectResults known revOf respOf o1)).length
        = (appendedRecords project_id repo_url start
            (collectResults known revOf respOf o2)).length := by
  have hperm : (collectResults known revOf respOf o1).Perm
      (collectResults known revOf respOf o2) :=
    List.Perm.flatMap_right _ h
  exact ⟨hperm, fun project_id repo_url start => by
    rw [appendedRecords_length, appendedRecords_length, hperm.length_eq]⟩

/-- C9 amended witness: the two opposite completion orders of the
counterexample produce permuted row lists of equal length. -/
theorem C9_amended_content_order_independent_witness :
    (collectResults [("1", "u1")]
        (fun _ => GitRevListResult.output ["c1", "p1"])
        (fun _ => ModelResponse.parsed (Json.arr [Json.str "1"]))
        [⟨"c1", "m1", ["1"]⟩, ⟨"c2", "m2", ["1"]⟩]).Perm
      (collectResults [("1", "u1")]
        (fun _ => GitRevListResult.output ["c1", "p1"])
        (fun _ => ModelResponse.parsed (Json.arr [Json.str "1"]))
        [⟨"c2", "m2", ["1"]⟩, ⟨"c1", "m1", ["1"]⟩]) :=
  (C9_amended_content_order_independent [("1", "u1")]
    (fun _ => GitRevListResult.output ["c1", "p1"])
    (fun _ => ModelResponse.parsed (Json.arr [Json.str "1"]))
    [⟨"c1", "m1", ["1"]⟩, ⟨"c2", "m2", ["1"]⟩]
    [⟨"c2", "m2", ["1"]⟩, ⟨"c1", "m1", ["1"]⟩] (by decide)).1

/-- The rstrip characterisation: `rstrip('.git')` removes exactly the
maximal trailing run of characters drawn from `{'.', 'g', 'i', 't'}`. -/
theorem rstripGitSet_spec (s : String) :
    ∃ stripped : List Char,
      s.data = (rstripGitSet s).data ++ stripped
      ∧ (∀ c ∈ stripped, c ∈ gitStripChars)
      ∧ (∀ last, (rstripGitSet s).data.getLast? = some last →
          last ∉ gitStripChars) := by
  refine ⟨(s.data.reverse.takeWhile
    (fun c => c ∈ gitStripChars)).reverse, ?_, ?_, ?_⟩
  · show s.data = (s.data.reverse.dropWhile
        (fun c => c ∈ gitStripChars)).reverse ++ _
    rw [← List.reverse_append, List.takeWhile_append_dropWhile,
      List.reverse_reverse]
  · intro c hc
    have := List.mem_takeWhile_imp (List.mem_reverse.mp hc)
    exact of_decide_eq_true this
  · intro last hlast
    have hlast' : (s.data.reverse.dropWhile
        (fun c => c ∈ gitStripChars)).head? = some last := by
      rw [← List.getLast?_reverse]
      exact hlast
    have hh := List.head?_dropWhile_not
      (fun c : Char => decide (c ∈ gitStripChars)) s.data.reverse
    rw [hlast'] at hh
    exact of_decide_eq_false hh

/-- C10: the buggy/fixed/compare URLs are built from the repository URL
by a CHARACTER-SET rstrip of `{'.', 'g', 'i', 't'}` (not removal of a
literal `.git` suffix): the kept prefix is maximal, everything stripped
is drawn from that set, and a repository named `…/digit.git` is
truncated to `…/d`; empty inputs or a URL without `github.com` give
`"NA"`. -/
theorem C10_url_construction :
    (∀ repo_url commit_hash : String, repo_url ≠ "" → commit_hash ≠ "" →
      strContains repo_url "github.com" = true →
      construct_commit_url repo_url commit_hash
        = rstripGitSet repo_url ++ "/tree/" ++ commit_hash)
    ∧ (∀ s : String, ∃ stripped : List Char,
        s.data = (rstripGitSet s).data ++ stripped
        ∧ (∀ c ∈ stripped, c ∈ gitStripChars)
        ∧ (∀ last, (rstripGitSet s).data.getLast? = some last →
            last ∉ gitStripChars))
    ∧ construct_commit_url "https://github.com/org/digit.git" "abc"
        = "https://github.com/org/d/tree/abc"
    ∧ construct_compare_url "https://github.com/org/digit.git" "a1" "b2"
        = "https://github.com/org/d/compare/a1...b2"
    ∧ (∀ h, construct_commit_url "" h = "NA")
    ∧ (∀ u, construct_commit_url u "" = "NA")
    ∧ (∀ u h, strContains u "github.com" = false →
        construct_commit_url u h = "NA") := by
  refine ⟨fun repo_url commit_hash h1 h2 h3 => ?_, rstripGitSet_spec,
    by decide, by decide, fun h => ?_, fun u => ?_, fun u h hgh => ?_⟩
  · simp [construct_commit_url, h1, h2, h3]
  · simp [construct_commit_url]
  · simp [construct_commit_url]
  · simp [construct_commit_url, hgh]

/-- C10 witness: a live github URL with the plain `.git` suffix. -/
theorem C10_url_construction_witness :
    construct_commit_url "https://github.com/o/r.git" "abc"
      = rstripGitSet "https://github.com/o/r.git" ++ "/tree/" ++ "abc" :=
  C10_url_construction.1 "https://github.com/o/r.git" "abc"
    (by decide) (by decide) (by decide)

/-! ## The batch loop (C6) -/

theorem mem_addDir (dirs : List String) (d x : String) :
    x ∈ addDir dirs d ↔ x ∈ dirs ∨ x = d := by
  rw [addDir]
  split
  · constructor
    · exact fun h => Or.inl h
    · rintro (h | rfl)
      · exact h
      · assumption
  · simp [List.mem_append]

theorem runBatch_cacheDirs (outcome : String → ProjectOutcome) :
    ∀ (l : List String) (st : BatchState),
      (runBatch outcome st l).1.cacheDirs = st.cacheDirs := by
  intro l
  induction l with
  | nil => intro st; rfl
  | cons q rest ih =>
    intro st
    cases hq : outcome q with
    | success => simp only [runBatch, hq]; exact ih _
    | failure => simp only [runBatch, hq]; exact ih _
    | uncaughtError => simp only [runBatch, hq]

theorem runBatch_not_mem (outcome : String → ProjectOutcome) (p : String)
    (hout : outcome p = ProjectOutcome.failure) :
    ∀ (l : List String) (st : BatchState), p ∉ st.outputDirs →
      p ∉ (runBatch outcome st l).1.outputDirs := by
  intro l
  induction l with
  | nil => intro st h; exact h
  | cons q rest ih =>
    intro st h
    by_cases hq : q = p
    · subst hq
      simp only [runBatch, hout]
      refine ih _ ?_
      intro hmem
      rw [List.mem_filter] at hmem
      simp at hmem
    · have hadd : p ∉ addDir st.outputDirs q := by
        rw [mem_addDir]
        rintro (hh | rfl)
        · exact h hh
        · exact hq rfl
      cases hqout : outcome q with
      | success => simp only [runBatch, hqout]; exact ih _ hadd
      | failure =>
        simp only [runBatch, hqout]
        refine ih _ ?_
        intro hmem
        rw [List.mem_filter] at hmem
        exact hadd hmem.1
      | uncaughtError =>
        simp only [runBatch, hqout]
        exact hadd

/-- C6 counterexample: a stage failure CAN abort the batch without
cleanup — an exception the stage handlers miss (the stage-4 `git diff`
`subprocess.TimeoutExpired`) escapes `process_project` and hits `main`'s
`except Exception`, which `sys.exit(1)`s: the failed project's output
directory survives and the next project never runs. -/
theorem C6_uncaught_error_counterexample :
    ¬ (("p1" ∉ (runBatch
          (fun pid => if pid = "p1" then ProjectOutcome.uncaughtError
            else ProjectOutcome.success)
          ⟨[], ["sharedCache"]⟩ ["p1", "p2"]).1.outputDirs)
        ∧ "p2" ∈ (runBatch
          (fun pid => if pid = "p1" then ProjectOutcome.uncaughtError
            else ProjectOutcome.success)
          ⟨[], ["sharedCache"]⟩ ["p1", "p2"]).2.1) := by
  decide

/-- C6 amended: the shared cache directories survive every run; when
every stage failure in the batch is of the HANDLED kind
(`process_project` returns `False`), each failed project's output
directory is removed and every project of the batch is processed in
order without aborting; but an exception escaping `process_project`
(e.g. the stage-4 diff timeout) stops the batch at that project, with
its output directory left in place. -/
theorem C6_amended_rollback (outcome : String → ProjectOutcome)
    (st : BatchState) (pids : List String) :
    (runBatch outcome st pids).1.cacheDirs = st.cacheDirs
    ∧ ((∀ q ∈ pids, outcome q ≠ ProjectOutcome.uncaughtError) →
        ((runBatch outcome st pids).2.1 = pids
         ∧ (runBatch outcome st pids).2.2 = false
         ∧ ∀ p ∈ pids, outcome p = ProjectOutcome.failure →
             p ∉ (runBatch outcome st pids).1.outputDirs))
    ∧ (∀ q rest, outcome q = ProjectOutcome.uncaughtError →
        runBatch outcome st (q :: rest)
          = ({ st with outputDirs := addDir st.outputDirs q }, [q], true)) := by
  refine ⟨runBatch_cacheDirs outcome pids st, ?_,
    fun q rest hq => by simp only [runBatch, hq]⟩
  induction pids generalizing st with
  | nil => exact fun _ => ⟨rfl, rfl, fun p hp => absurd hp (List.not_mem_nil p)⟩
  | cons q rest ih =>
    intro hno
    have hno' : ∀ r ∈ rest, outcome r ≠ ProjectOutcome.uncaughtError :=
      fun r hr => hno r (List.mem_cons_of_mem _ hr)
    cases hq : outcome q with
    | uncaughtError => exact absurd hq (hno q (List.mem_cons_self q rest))
    | success =>
      simp only [runBatch, hq]
      obtain ⟨h1, h2, h3⟩ := ih _ hno'
      refine ⟨by rw [h1], h2, ?_⟩
      intro p hp hpf
      rcases List.mem_cons.mp hp with rfl | hp'
      · rw [hq] at hpf
        cases hpf
      · exact h3 p hp' hpf
    | failure =>
      simp only [runBatch, hq]
      obtain ⟨h1, h2, h3⟩ := ih _ hno'
      refine ⟨by rw [h1], h2, ?_⟩
      intro p hp hpf
      rcases List.mem_cons.mp hp with rfl | hp'
      · refine runBatch_not_mem outcome p hpf rest _ ?_
        intro hmem
        rw [List.mem_filter] at hmem
        simp at hmem
      · exact h3 p hp' hpf

/-- C6 amended witness: a handled failure (`bad`) is cleaned up and the
batch continues; an uncaught error (`p1`) aborts with `p1`'s output
directory still present. -/
theorem C6_amended_rollback_witness :
    ((runBatch (fun pid => if pid = "bad" then ProjectOutcome.failure
        else ProjectOutcome.success) ⟨[], ["sharedCache"]⟩
        ["bad", "good"]).2.1 = ["bad", "good"])
    ∧ ("bad" ∉ (runBatch (fun pid => if pid = "bad" then ProjectOutcome.failure
        else ProjectOutcome.success) ⟨[], ["sharedCache"]⟩
        ["bad", "good"]).1.outputDirs)
    ∧ (runBatch (fun _ => ProjectOutcome.uncaughtError) ⟨[], ["sharedCache"]⟩
        ["p1", "p2"]
        = (⟨["p1"], ["sharedCache"]⟩, ["p1"], true)) :=
  ⟨((C6_amended_rollback (fun pid => if pid = "bad" then ProjectOutcome.failure
      else ProjectOutcome.success) ⟨[], ["sharedCache"]⟩
      ["bad", "good"]).2.1 (by decide)).1,
   ((C6_amended_rollback (fun pid => if pid = "bad" then ProjectOutcome.failure
      else ProjectOutcome.success) ⟨[], ["sharedCache"]⟩
      ["bad", "good"]).2.1 (by decide)).2.2 "bad" (by decide) (by decide),
   (C6_amended_rollback (fun _ => ProjectOutcome.uncaughtError)
      ⟨[], ["sharedCache"]⟩ ["p1", "p2"]).2.2 "p1" ["p2"] rfl⟩

/-! ## Download and patch cleanup (C8) -/

theorem firstSuccessIn_none (attempts : Nat → Option String) :
    ∀ (r start : Nat), (∀ i, start ≤ i → i < start + r → attempts i = none) →
      firstSuccessIn attempts start r = none := by
  intro r
  induction r with
  | zero => intro start _; rfl
  | succ k ih =>
    intro start h
    rw [firstSuccessIn, h start (Nat.le_refl _) (by omega)]
    exact ih (start + 1) (fun i h1 h2 => h i (by omega) (by omega))

/-- C8 counterexample: a successful `git diff` with empty stdout writes
and KEEPS a zero-length patch file (the source only prints a warning),
contradicting "the patch file for that ledger row does not exist". -/
theorem C8_zero_length_patch_counterexample :
    ¬ (patchFileAfter none (GitDiffOutcome.output "") = none) := by
  decide

/-- C8 amended: after a report download exhausts its retry attempts the
target file does not exist (even if something was there before) and the
call returns `False`; after a FAILED (process-error) patch generation
the patch file does not exist; but a zero-length successful diff leaves
an empty patch file behind with only a warning. -/
theorem C8_amended_failure_cleanup (attempts : Nat → Option String)
    (pre : Option String)
    (hfail : ∀ i, i < max_app_retries → attempts i = none) :
    download_report_data attempts pre
      = { success := false, fileContents := none }
    ∧ patchFileAfter none GitDiffOutcome.processError = none
    ∧ patchFileAfter none (GitDiffOutcome.output "") = some "" := by
  refine ⟨?_, rfl, rfl⟩
  have h4 : firstSuccessIn attempts 0 max_app_retries = none :=
    firstSuccessIn_none attempts max_app_retries 0
      (fun i h1 h2 => hfail i (by omega))
  show (match firstSuccessIn attempts 0 max_app_retries with
        | some t => ({ success := true, fileContents := some t } : DownloadResult)
        | none => { success := false, fileContents := none }) =
      { success := false, fileContents := none }
  rw [h4]

/-- C8 witness: every attempt fails; the pre-existing partial file is
gone and the call reports failure. -/
theorem C8_amended_failure_cleanup_witness :
    download_report_data (fun _ => none) (some "partial")
      = { success := false, fileContents := none }
    ∧ patchFileAfter none (GitDiffOutcome.output "") = some "" :=
  ⟨(C8_amended_failure_cleanup (fun _ => none) (some "partial")
      (fun _ _ => rfl)).1,
   (C8_amended_failure_cleanup (fun _ => none) (some "partial")
      (fun _ _ => rfl)).2.2⟩

/-! ## Idempotent re-run (C5) -/

theorem reportStep_skip (spec : ProjSpec) (w : MinerWorld) (s : FsState)
    (row : CsvRow)
    (hrep : urlUsable row.report_url = true →
      (row.bug_id, reportExt row.report_url spec.tracker_base_url)
        ∈ s.reports) :
    reportStep spec w s row = (s, []) := by
  simp only [reportStep]
  by_cases hu : urlUsable row.report_url = true
  · rw [if_pos hu, if_pos (hrep hu)]
  · rw [if_neg hu]

theorem timelineStep_skip (spec : ProjSpec) (w : MinerWorld) (s : FsState)
    (row : CsvRow)
    (htl : reportExt row.report_url spec.tracker_base_url = ".json" →
      urlUsable row.report_url = true → row.bug_id ∈ s.timelines) :
    timelineStep spec w s row = (s, []) := by
  simp only [timelineStep]
  by_cases hg : (decide (reportExt row.report_url spec.tracker_base_url
      = ".json") && urlUsable row.report_url
      && decide ((row.bug_id, reportExt row.report_url spec.tracker_base_url)
        ∈ s.reports)) = true
  · have hg' := hg
    simp only [Bool.and_eq_true, decide_eq_true_eq] at hg'
    rw [if_pos hg, if_pos (htl hg'.1.1 hg'.1.2)]
  · rw [if_neg hg]

theorem patchStep_skip (w : MinerWorld) (s : FsState) (row : CsvRow)
    (hpat : row.commit_buggy ≠ "" → row.commit_fixed ≠ "" →
      row.bug_id ∈ s.patches) :
    patchStep w s row = (s, []) := by
  rw [patchStep]
  by_cases hb : row.commit_buggy = ""
  · rw [if_pos (by simp [hb])]
  · by_cases hf : row.commit_fixed = ""
    · rw [if_pos (by simp [hf])]
    · rw [if_neg (by simp [hb, hf]), if_pos (hpat hb hf)]

theorem materializeRow_skip (spec : ProjSpec) (w : MinerWorld)
    (s : FsState) (row : CsvRow)
    (hrep : urlUsable row.report_url = true →
      (row.bug_id, reportExt row.report_url spec.tracker_base_url)
        ∈ s.reports)
    (htl : reportExt row.report_url spec.tracker_base_url = ".json" →
      urlUsable row.report_url = true → row.bug_id ∈ s.timelines)
    (hpat : row.commit_buggy ≠ "" → row.commit_fixed ≠ "" →
      row.bug_id ∈ s.patches) :
    materializeRow spec w s row = (s, []) := by
  simp only [materializeRow, reportStep_skip spec w s row hrep]
  simp only [timelineStep_skip spec w s row htl]
  simp only [patchStep_skip w s row hpat]
  simp

theorem materializeAll_skip (spec : ProjSpec) (w : MinerWorld) :
    ∀ (rows : List CsvRow) (s : FsState),
    (∀ r ∈ rows, (urlUsable r.report_url = true →
        (r.bug_id, reportExt r.report_url spec.tracker_base_url)
          ∈ s.reports)
      ∧ (reportExt r.report_url spec.tracker_base_url = ".json" →
          urlUsable r.report_url = true → r.bug_id ∈ s.timelines)
      ∧ (r.commit_buggy ≠ "" → r.commit_fixed ≠ "" →
          r.bug_id ∈ s.patches)) →
    materializeAll spec w s rows = (s, []) := by
  intro rows
  induction rows with
  | nil => intro s _; rfl
  | cons row rest ih =>
    intro s h
    have hrow := h row (List.mem_cons_self row rest)
    have hms : materializeRow spec w s row = (s, []) :=
      materializeRow_skip spec w s row hrow.1 hrow.2.1 hrow.2.2
    have hrest : materializeAll spec w s rest = (s, []) :=
      ih s (fun r hr => h r (List.mem_cons_of_mem _ hr))
    simp only [materializeAll, hms, hrest]
    rfl

/-- C5: when every artifact is already present (repository mirror,
non-empty issue index, git-log snapshot, ledger, and for every ledger
row its report, timeline and patch files as applicable), a re-run of
`process_project` succeeds, issues ZERO network or external-process
calls, and leaves the entire on-disk state — the ledger included —
unchanged: every stage skips on its existing output artifact. -/
theorem C5_idempotent_rerun (spec : ProjSpec) (w : MinerWorld)
    (s : FsState) (rows : List CsvRow) (n : Nat)
    (hrepo : s.repoMirror = true)
    (hiss : s.issuesFileSize = some n) (hn : n ≠ 0)
    (hlog : s.gitlog = true)
    (hled : s.ledger = some rows)
    (hrep : ∀ r ∈ rows, urlUsable r.report_url = true →
      (r.bug_id, reportExt r.report_url spec.tracker_base_url)
        ∈ s.reports)
    (htl : ∀ r ∈ rows, reportExt r.report_url spec.tracker_base_url
        = ".json" → urlUsable r.report_url = true →
        r.bug_id ∈ s.timelines)
    (hpat : ∀ r ∈ rows, r.commit_buggy ≠ "" → r.commit_fixed ≠ "" →
      r.bug_id ∈ s.patches) :
    process_project spec w s = (true, s, []) := by
  have hmat : materializeAll spec w s rows = (s, []) :=
    materializeAll_skip spec w rows s
      (fun r hr => ⟨hrep r hr, htl r hr, hpat r hr⟩)
  have hx : stageXref spec w s [] = (true, s, []) := by
    simp only [stageXref, hled, hmat]
    rfl
  have hl : stageLog spec w s [] = (true, s, []) := by
    rw [stageLog, if_pos hlog]
    exact hx
  have hi : stageIssues spec w s [] = (true, s, []) := by
    rw [stageIssues, if_neg (by rw [hiss]; simp [hn])]
    exact hl
  rw [process_project, if_pos hrepo]
  exact hi

/-- C5 witness: a concrete fully-cached project state; the re-run is a
no-op with an empty call trace. -/
theorem C5_idempotent_rerun_witness :
    process_project
      ⟨"pid", "pname", "https://github.com/o/r.git", "github", "o/r",
        "regex", ".", none⟩
      ⟨false, false, 0, false, false, [], fun _ => false, fun _ => none,
        fun _ => false, fun _ => none⟩
      ⟨true, some 5, true,
        some [⟨"1", "a", "b", "https://github.com/o/r/issues/1"⟩],
        [("1", ".json")], ["1"], ["1"]⟩
      = (true,
        ⟨true, some 5, true,
          some [⟨"1", "a", "b", "https://github.com/o/r/issues/1"⟩],
          [("1", ".json")], ["1"], ["1"]⟩, []) :=
  C5_idempotent_rerun
    ⟨"pid", "pname", "https://github.com/o/r.git", "github", "o/r",
      "regex", ".", none⟩
    ⟨false, false, 0, false, false, [], fun _ => false, fun _ => none,
      fun _ => false, fun _ => none⟩
    ⟨true, some 5, true,
      some [⟨"1", "a", "b", "https://github.com/o/r/issues/1"⟩],
      [("1", ".json")], ["1"], ["1"]⟩
    [⟨"1", "a", "b", "https://github.com/o/r/issues/1"⟩] 5
    rfl rfl (by decide) rfl rfl (by decide) (by decide) (by decide)

